import Mathlib

/-!
Verification of the variant generation-and-registration pipeline
(`extras/general_pipelines/py2_generate_all.py`).

The script enumerates the cross product of two parameter tuples
(`warps_choices` × `tile_dim_choices`); for each combination it invokes an
external generator process, appends one line to a registry file (opened in
truncating write mode before the loop), and requests version-control
tracking of the two generated artifact files.

We embed the script as a pure function producing the ordered trace of its
side effects (file truncation, generator invocations, registry writes,
version-control track requests), parameterised by the generator
collaborator's exit statuses (which the script discards).
-/

namespace Py2GenerateAll

/-- One enumerated combination `(warps, tileWidth, tileHeight)`.
In the script `tileWidth = tileHeight = tile_dim` always. -/
structure Variant where
  warps : Nat
  tileWidth : Nat
  tileHeight : Nat
deriving DecidableEq, Repr

/-- Decimal digit character, as produced by Python string formatting of a
digit (values ≥ 10 never occur for arguments reduced mod 10). -/
def digitChar : Nat → Char
  | 0 => '0'
  | 1 => '1'
  | 2 => '2'
  | 3 => '3'
  | 4 => '4'
  | 5 => '5'
  | 6 => '6'
  | 7 => '7'
  | 8 => '8'
  | 9 => '9'
  | _ => '*'

/-- Fuel-driven decimal rendering of a natural number, most significant
digit first; `fuel > n` suffices (each step divides by 10). -/
def natToDecimalAux : Nat → Nat → List Char
  | 0, _ => []
  | fuel + 1, n =>
    if n < 10 then [digitChar n]
    else natToDecimalAux fuel (n / 10) ++ [digitChar (n % 10)]

/-- Decimal rendering of a natural number, as Python `str`/f-string
formatting produces for a non-negative integer. -/
def natToDecimal (n : Nat) : List Char := natToDecimalAux (n + 1) n

/-- Character list of the canonical variant name
`py2_{warps}_{tileWidth}_{tileHeight}` (source line:
`name = f"py2_{warps}_{tile_dim}_{tile_dim}"`, with the model allowing the
two tile components to differ as the spec's data model does). -/
def variantNameChars (warps tileWidth tileHeight : Nat) : List Char :=
  'p' :: 'y' :: '2' :: '_' ::
    (natToDecimal warps ++ '_' :: (natToDecimal tileWidth ++ '_' :: natToDecimal tileHeight))

/-- The canonical variant name as a string. -/
def variantName (v : Variant) : String :=
  ⟨variantNameChars v.warps v.tileWidth v.tileHeight⟩

/-- One serialized registry entry: the literal line
`{"<name>", {"<name>"}},` followed by a newline (source:
`'{"%s", {"%s"}},\n' % (name, name)`). -/
def registryLine (name : String) : String :=
  "\x7b\"" ++ name ++ "\", \x7b\"" ++ name ++ "\"\x7d\x7d,\n"

/-- The ordered side effects of the script: truncating open of the registry
file, generator invocation (recording the discarded exit status), registry
write, and version-control track request. -/
inductive Event where
  | openTrunc : Event
  | genCall (warps tileWidth tileHeight : Nat) (status : Int) : Event
  | write (s : String) : Event
  | gitAdd (path : String) : Event
deriving DecidableEq, Repr

/-- The Parameter Enumerator: the nested loops
`for warps in warps_choices: for tile_dim in tile_dim_choices:` viewed as
the ordered list of combinations they visit, each with
`tileWidth = tileHeight = tile_dim`. -/
def enumerate (warpCounts tileDims : List Nat) : List Variant :=
  warpCounts.flatMap fun w => tileDims.map fun t => ⟨w, t, t⟩

/-- Side effects of one iteration of the inner loop body:
generator invocation, registry write, two `git add` requests
(source lines 13-17). `gen` models the generator collaborator's exit
status, which `os.system` returns and the script discards. -/
def bodyEvents (gen : Nat → Nat → Nat → Int) (v : Variant) : List Event :=
  [ Event.genCall v.warps v.tileWidth v.tileHeight (gen v.warps v.tileWidth v.tileHeight),
    Event.write (registryLine (variantName v)),
    Event.gitAdd (variantName v ++ "/general_pipeline_alternative.glsl"),
    Event.gitAdd (variantName v ++ "/" ++ variantName v ++ ".cpp") ]

/-- The whole run: the registry file is opened with mode `'w'` (truncate)
before the loop, then the loop body runs once per enumerated combination,
in enumeration order. -/
def runEvents (gen : Nat → Nat → Nat → Int) (warpCounts tileDims : List Nat) : List Event :=
  Event.openTrunc ::
    ((enumerate warpCounts tileDims).flatMap fun v => bodyEvents gen v)

/-- The baseline tuple `warps_choices = (4, 6, 8, 10, 12, 16, 32)`. -/
def warps_choices : List Nat := [4, 6, 8, 10, 12, 16, 32]

/-- The baseline tuple `tile_dim_choices = (8, 10, 12, 14, 16, 20, 24)`. -/
def tile_dim_choices : List Nat := [8, 10, 12, 14, 16, 20, 24]

/-- The script's full baseline run over its two constant tuples. -/
def mainRun (gen : Nat → Nat → Nat → Int) : List Event :=
  runEvents gen warps_choices tile_dim_choices

/-- The sequence of registry lines written during a trace, in order. -/
def writesOf (es : List Event) : List String :=
  es.filterMap fun e =>
    match e with
    | Event.write s => some s
    | _ => none

/-- The sequence of version-control track requests issued during a trace. -/
def gitAddsOf (es : List Event) : List String :=
  es.filterMap fun e =>
    match e with
    | Event.gitAdd p => some p
    | _ => none

/-- The sequence of generator invocations during a trace, as triples. -/
def genCallsOf (es : List Event) : List (Nat × Nat × Nat) :=
  es.filterMap fun e =>
    match e with
    | Event.genCall w tw th _ => some (w, tw, th)
    | _ => none

/-- Registry file content produced by a trace starting from prior content
`prev`: a truncating open discards everything so far, a write appends. -/
def fileAfter (prev : String) (es : List Event) : String :=
  es.foldl
    (fun acc e =>
      match e with
      | Event.openTrunc => ""
      | Event.write s => acc ++ s
      | _ => acc)
    prev

/-- Final registry content of a full run (bytes of all writes, in order). -/
def registryContent (es : List Event) : String :=
  String.join (writesOf es)

/-- Value of a decimal digit list, most significant digit first. -/
def decodeDecimal (cs : List Char) : Nat :=
  cs.foldl (fun acc c => acc * 10 + (c.toNat - 48)) 0

lemma digitChar_ne_underscore (d : Nat) : digitChar d ≠ '_' := by
  match d with
  | 0 | 1 | 2 | 3 | 4 | 5 | 6 | 7 | 8 | 9 => decide
  | d + 10 =>
    show ('*' : Char) ≠ '_'
    decide

lemma toNat_digitChar_sub (d : Nat) (h : d < 10) : (digitChar d).toNat - 48 = d := by
  interval_cases d <;> decide

lemma decodeDecimal_append_singleton (cs : List Char) (c : Char) :
    decodeDecimal (cs ++ [c]) = decodeDecimal cs * 10 + (c.toNat - 48) := by
  simp [decodeDecimal, List.foldl_append]

lemma decodeDecimal_natToDecimalAux (fuel : Nat) :
    ∀ n, n < fuel → decodeDecimal (natToDecimalAux fuel n) = n := by
  induction fuel with
  | zero => intro n h; omega
  | succ fuel ih =>
    intro n h
    by_cases h10 : n < 10
    · rw [natToDecimalAux, if_pos h10]
      simp [decodeDecimal, toNat_digitChar_sub n h10]
    · rw [natToDecimalAux, if_neg h10, decodeDecimal_append_singleton]
      have hdiv : n / 10 < n := Nat.div_lt_self (by omega) (by omega)
      rw [ih (n / 10) (by omega), toNat_digitChar_sub (n % 10) (Nat.mod_lt _ (by omega))]
      omega

lemma decodeDecimal_natToDecimal (n : Nat) : decodeDecimal (natToDecimal n) = n :=
  decodeDecimal_natToDecimalAux (n + 1) n (Nat.lt_succ_self n)

lemma natToDecimal_inj {m n : Nat} (h : natToDecimal m = natToDecimal n) : m = n := by
  have hm := decodeDecimal_natToDecimal m
  rw [h, decodeDecimal_natToDecimal] at hm
  omega

lemma natToDecimalAux_ne_underscore (fuel : Nat) :
    ∀ n c, c ∈ natToDecimalAux fuel n → c ≠ '_' := by
  induction fuel with
  | zero => intro n c hc; simp [natToDecimalAux] at hc
  | succ fuel ih =>
    intro n c hc
    rw [natToDecimalAux] at hc
    by_cases h10 : n < 10
    · rw [if_pos h10] at hc
      simp at hc
      subst hc
      exact digitChar_ne_underscore n
    · rw [if_neg h10] at hc
      rcases List.mem_append.1 hc with h1 | h2
      · exact ih _ _ h1
      · simp at h2
        subst h2
        exact digitChar_ne_underscore _

lemma natToDecimal_ne_underscore (n : Nat) : ∀ c ∈ natToDecimal n, c ≠ '_' :=
  fun c hc => natToDecimalAux_ne_underscore (n + 1) n c hc

lemma split_at_underscore :
    ∀ (xs xs' ys ys' : List Char),
      (∀ c ∈ xs, c ≠ '_') → (∀ c ∈ xs', c ≠ '_') →
      xs ++ '_' :: ys = xs' ++ '_' :: ys' → xs = xs' ∧ ys = ys' := by
  intro xs
  induction xs with
  | nil =>
    intro xs' ys ys' _ hx' h
    cases xs' with
    | nil => simpa using h
    | cons a t =>
      exfalso
      simp only [List.nil_append, List.cons_append] at h
      injection h with h1 h2
      exact hx' a (List.mem_cons_self a t) h1.symm
  | cons x xt ih =>
    intro xs' ys ys' hx hx' h
    cases xs' with
    | nil =>
      exfalso
      simp only [List.nil_append, List.cons_append] at h
      injection h with h1 h2
      exact hx x (List.mem_cons_self x xt) h1
    | cons a t =>
      simp only [List.cons_append] at h
      injection h with h1 h2
      obtain ⟨e1, e2⟩ := ih t ys ys'
        (fun c hc => hx c (List.mem_cons_of_mem _ hc))
        (fun c hc => hx' c (List.mem_cons_of_mem _ hc)) h2
      subst h1
      exact ⟨by rw [e1], e2⟩

lemma variantNameChars_inj {a b c a' b' c' : Nat}
    (h : variantNameChars a b c = variantNameChars a' b' c') :
    a = a' ∧ b = b' ∧ c = c' := by
  unfold variantNameChars at h
  injection h with h1 h
  injection h with h2 h
  injection h with h3 h
  injection h with h4 h
  obtain ⟨ha, h⟩ := split_at_underscore _ _ _ _
    (natToDecimal_ne_underscore a) (natToDecimal_ne_underscore a') h
  obtain ⟨hb, hc⟩ := split_at_underscore _ _ _ _
    (natToDecimal_ne_underscore b) (natToDecimal_ne_underscore b') h
  exact ⟨natToDecimal_inj ha, natToDecimal_inj hb, natToDecimal_inj hc⟩

lemma variantName_inj {v v' : Variant} (h : variantName v = variantName v') : v = v' := by
  have hd : variantNameChars v.warps v.tileWidth v.tileHeight
      = variantNameChars v'.warps v'.tileWidth v'.tileHeight := congrArg String.data h
  obtain ⟨h1, h2, h3⟩ := variantNameChars_inj hd
  cases v
  cases v'
  simp_all

lemma enumerate_cons (w : Nat) (ws ts : List Nat) :
    enumerate (w :: ws) ts = (ts.map fun t => ⟨w, t, t⟩) ++ enumerate ws ts := rfl

lemma length_enumerate (ws ts : List Nat) :
    (enumerate ws ts).length = ws.length * ts.length := by
  induction ws with
  | nil => simp [enumerate]
  | cons w ws ih =>
    rw [enumerate_cons, List.length_append, List.length_map, ih]
    simp [List.length_cons]
    ring

lemma enumerate_getElem? :
    ∀ (ws ts : List Nat) (i j : Nat) (hi : i < ws.length) (hj : j < ts.length),
      (enumerate ws ts)[i * ts.length + j]? =
        some ⟨ws.get ⟨i, hi⟩, ts.get ⟨j, hj⟩, ts.get ⟨j, hj⟩⟩ := by
  intro ws
  induction ws with
  | nil => intro ts i j hi _; simp at hi
  | cons w ws ih =>
    intro ts i j hi hj
    rw [enumerate_cons]
    cases i with
    | zero =>
      rw [List.getElem?_append, if_pos (by simpa using hj)]
      simp [List.getElem?_map, List.getElem?_eq_getElem hj]
    | succ i =>
      have hmul : (i + 1) * ts.length = i * ts.length + ts.length := by ring
      rw [List.getElem?_append_right (by simp only [List.length_map]; omega)]
      have hidx : (i + 1) * ts.length + j - (ts.map fun t => (⟨w, t, t⟩ : Variant)).length
          = i * ts.length + j := by
        simp only [List.length_map]
        omega
      rw [hidx, ih ts i j (by simpa using hi) hj]
      simp

lemma writesOf_bodyEvents (gen : Nat → Nat → Nat → Int) (v : Variant) :
    writesOf (bodyEvents gen v) = [registryLine (variantName v)] := rfl

lemma gitAddsOf_bodyEvents (gen : Nat → Nat → Nat → Int) (v : Variant) :
    gitAddsOf (bodyEvents gen v) =
      [variantName v ++ "/general_pipeline_alternative.glsl",
       variantName v ++ "/" ++ variantName v ++ ".cpp"] := rfl

lemma genCallsOf_bodyEvents (gen : Nat → Nat → Nat → Int) (v : Variant) :
    genCallsOf (bodyEvents gen v) = [(v.warps, v.tileWidth, v.tileHeight)] := rfl

lemma writesOf_flatMap_body (gen : Nat → Nat → Nat → Int) (l : List Variant) :
    writesOf (l.flatMap (bodyEvents gen)) = l.map fun v => registryLine (variantName v) := by
  induction l with
  | nil => rfl
  | cons v l ih =>
    rw [List.flatMap_cons]
    rw [show writesOf (bodyEvents gen v ++ l.flatMap (bodyEvents gen))
        = writesOf (bodyEvents gen v) ++ writesOf (l.flatMap (bodyEvents gen)) from
      List.filterMap_append _ _ _]
    rw [writesOf_bodyEvents, ih]
    rfl

lemma gitAddsOf_flatMap_body (gen : Nat → Nat → Nat → Int) (l : List Variant) :
    gitAddsOf (l.flatMap (bodyEvents gen)) =
      l.flatMap fun v =>
        [variantName v ++ "/general_pipeline_alternative.glsl",
         variantName v ++ "/" ++ variantName v ++ ".cpp"] := by
  induction l with
  | nil => rfl
  | cons v l ih =>
    rw [List.flatMap_cons, List.flatMap_cons]
    rw [show gitAddsOf (bodyEvents gen v ++ l.flatMap (bodyEvents gen))
        = gitAddsOf (bodyEvents gen v) ++ gitAddsOf (l.flatMap (bodyEvents gen)) from
      List.filterMap_append _ _ _]
    rw [gitAddsOf_bodyEvents, ih]

lemma genCallsOf_flatMap_body (gen : Nat → Nat → Nat → Int) (l : List Variant) :
    genCallsOf (l.flatMap (bodyEvents gen)) =
      l.map fun v => (v.warps, v.tileWidth, v.tileHeight) := by
  induction l with
  | nil => rfl
  | cons v l ih =>
    rw [List.flatMap_cons]
    rw [show genCallsOf (bodyEvents gen v ++ l.flatMap (bodyEvents gen))
        = genCallsOf (bodyEvents gen v) ++ genCallsOf (l.flatMap (bodyEvents gen)) from
      List.filterMap_append _ _ _]
    rw [genCallsOf_bodyEvents, ih]
    rfl

lemma writesOf_runEvents (gen : Nat → Nat → Nat → Int) (ws ts : List Nat) :
    writesOf (runEvents gen ws ts) =
      (enumerate ws ts).map fun v => registryLine (variantName v) := by
  rw [runEvents, show writesOf (Event.openTrunc :: (enumerate ws ts).flatMap (bodyEvents gen))
      = writesOf ((enumerate ws ts).flatMap (bodyEvents gen)) from rfl]
  exact writesOf_flatMap_body gen _

lemma gitAddsOf_runEvents (gen : Nat → Nat → Nat → Int) (ws ts : List Nat) :
    gitAddsOf (runEvents gen ws ts) =
      (enumerate ws ts).flatMap fun v =>
        [variantName v ++ "/general_pipeline_alternative.glsl",
         variantName v ++ "/" ++ variantName v ++ ".cpp"] := by
  rw [runEvents, show gitAddsOf (Event.openTrunc :: (enumerate ws ts).flatMap (bodyEvents gen))
      = gitAddsOf ((enumerate ws ts).flatMap (bodyEvents gen)) from rfl]
  exact gitAddsOf_flatMap_body gen _

lemma genCallsOf_runEvents (gen : Nat → Nat → Nat → Int) (ws ts : List Nat) :
    genCallsOf (runEvents gen ws ts) =
      (enumerate ws ts).map fun v => (v.warps, v.tileWidth, v.tileHeight) := by
  rw [runEvents, show genCallsOf (Event.openTrunc :: (enumerate ws ts).flatMap (bodyEvents gen))
      = genCallsOf ((enumerate ws ts).flatMap (bodyEvents gen)) from rfl]
  exact genCallsOf_flatMap_body gen _

lemma foldl_string_append (l : List String) :
    ∀ a b : String, List.foldl (fun r s => r ++ s) (a ++ b) l
      = a ++ List.foldl (fun r s => r ++ s) b l := by
  induction l with
  | nil => intro a b; rfl
  | cons x l ih =>
    intro a b
    show List.foldl (fun r s => r ++ s) (a ++ b ++ x) l = _
    rw [String.append_assoc, ih a (b ++ x)]
    rfl

lemma fileAfter_no_trunc :
    ∀ (es : List Event) (prev : String), Event.openTrunc ∉ es →
      fileAfter prev es = prev ++ String.join (writesOf es) := by
  intro es
  induction es with
  | nil =>
    intro prev _
    show prev = prev ++ ""
    rw [String.append_empty]
  | cons e es ih =>
    intro prev hni
    have hni' : Event.openTrunc ∉ es := fun h => hni (List.mem_cons_of_mem _ h)
    cases e with
    | openTrunc => exact absurd (List.mem_cons_self _ _) hni
    | genCall w tw th s => exact ih prev hni'
    | write s =>
      show fileAfter (prev ++ s) es = prev ++ String.join (s :: writesOf es)
      rw [ih (prev ++ s) hni']
      show prev ++ s ++ String.join (writesOf es)
        = prev ++ List.foldl (fun r t => r ++ t) ("" ++ s) (writesOf es)
      rw [String.empty_append]
      rw [show (s : String) = s ++ "" from (String.append_empty s).symm]
      rw [foldl_string_append (writesOf es) s ""]
      rw [String.append_empty, String.append_assoc]
      rfl
    | gitAdd p => exact ih prev hni'

lemma openTrunc_not_mem_flatMap_body (gen : Nat → Nat → Nat → Int) (l : List Variant) :
    Event.openTrunc ∉ l.flatMap (bodyEvents gen) := by
  intro h
  rw [List.mem_flatMap] at h
  obtain ⟨v, _, hv⟩ := h
  simp [bodyEvents] at hv

lemma fileAfter_runEvents (gen : Nat → Nat → Nat → Int) (ws ts : List Nat) (prev : String) :
    fileAfter prev (runEvents gen ws ts) = registryContent (runEvents gen ws ts) := by
  rw [runEvents]
  show fileAfter "" ((enumerate ws ts).flatMap (bodyEvents gen)) = _
  rw [fileAfter_no_trunc _ "" (openTrunc_not_mem_flatMap_body gen _), String.empty_append]
  rw [registryContent]
  rfl

lemma flatMap_body_getElem? (gen : Nat → Nat → Nat → Int) :
    ∀ (l : List Variant) (k i : Nat) (hk : k < l.length), i < 4 →
      (l.flatMap (bodyEvents gen))[4 * k + i]? = (bodyEvents gen (l.get ⟨k, hk⟩))[i]? := by
  intro l
  induction l with
  | nil => intro k i hk _; simp at hk
  | cons v l ih =>
    intro k i hk hi
    rw [List.flatMap_cons]
    cases k with
    | zero =>
      rw [List.getElem?_append, if_pos (by show 4 * 0 + i < 4; omega)]
      rw [show 4 * 0 + i = i from by omega]
      rfl
    | succ k =>
      rw [List.getElem?_append_right (by show (4 : Nat) ≤ 4 * (k + 1) + i; omega)]
      have hidx : 4 * (k + 1) + i - (bodyEvents gen v).length = 4 * k + i := by
        show 4 * (k + 1) + i - 4 = 4 * k + i
        omega
      rw [hidx, ih k i (by simpa using hk) hi]
      rfl

lemma runEvents_getElem? (gen : Nat → Nat → Nat → Int) (ws ts : List Nat) (k i : Nat)
    (hk : k < (enumerate ws ts).length) (hi : i < 4) :
    (runEvents gen ws ts)[4 * k + i + 1]? =
      (bodyEvents gen ((enumerate ws ts).get ⟨k, hk⟩))[i]? := by
  rw [runEvents, List.getElem?_cons_succ]
  exact flatMap_body_getElem? gen _ k i hk hi

/-- Claim C1: for every pair of non-empty sequences of positive integers
`warpCounts` (size m) and `tileDims` (size n), the enumeration produces
exactly m×n Variants in nested-loop order — the Variant at flat position
`i*n + j` pairs the i-th warp count with the j-th tile dimension, with
`tileWidth = tileHeight` = that tile dimension — and in particular
`warpCounts = (4,6)`, `tileDims = (8,10)` yields
`[(4,8,8), (4,10,10), (6,8,8), (6,10,10)]`. -/
theorem C1_enumerate_nested_order (ws ts : List Nat)
    (hne1 : ws ≠ []) (hne2 : ts ≠ [])
    (hpos1 : ∀ w ∈ ws, 0 < w) (hpos2 : ∀ t ∈ ts, 0 < t) :
    (enumerate ws ts).length = ws.length * ts.length ∧
    (∀ i j (hi : i < ws.length) (hj : j < ts.length),
      (enumerate ws ts)[i * ts.length + j]? =
        some ⟨ws.get ⟨i, hi⟩, ts.get ⟨j, hj⟩, ts.get ⟨j, hj⟩⟩) ∧
    enumerate [4, 6] [8, 10] = [⟨4, 8, 8⟩, ⟨4, 10, 10⟩, ⟨6, 8, 8⟩, ⟨6, 10, 10⟩] :=
  ⟨length_enumerate ws ts,
   fun i j hi hj => enumerate_getElem? ws ts i j hi hj,
   by decide⟩

/-- Witness for C1 at `warpCounts = [4,6]`, `tileDims = [8,10]`. -/
theorem C1_enumerate_nested_order_witness :
    (enumerate [4, 6] [8, 10]).length = 2 * 2 ∧
    (enumerate [4, 6] [8, 10])[1 * 2 + 1]? = some ⟨6, 10, 10⟩ := by
  have h := C1_enumerate_nested_order [4, 6] [8, 10] (by decide) (by decide)
    (by decide) (by decide)
  exact ⟨h.1, h.2.1 1 1 (by decide) (by decide)⟩

/-- Claim C2: after a full run over sequences of sizes m and n, the registry
stream holds exactly m×n lines, each of the literal form
`{"<name>", {"<name>"}},` plus newline, in enumeration order, and the
registry file is opened in truncating mode at the start of the run. -/
theorem C2_registry_stream (gen : Nat → Nat → Nat → Int) (ws ts : List Nat) :
    writesOf (runEvents gen ws ts)
        = (enumerate ws ts).map (fun v => registryLine (variantName v)) ∧
    (writesOf (runEvents gen ws ts)).length = ws.length * ts.length ∧
    (∀ line ∈ writesOf (runEvents gen ws ts), ∃ name,
        line = "\x7b\"" ++ name ++ "\", \x7b\"" ++ name ++ "\"\x7d\x7d,\n") ∧
    (runEvents gen ws ts).head? = some Event.openTrunc := by
  refine ⟨writesOf_runEvents gen ws ts, ?_, ?_, rfl⟩
  · rw [writesOf_runEvents, List.length_map, length_enumerate]
  · intro line hline
    rw [writesOf_runEvents] at hline
    obtain ⟨v, _, rfl⟩ := List.mem_map.1 hline
    exact ⟨variantName v, rfl⟩

/-- Claim C3: the canonical name `py2_{warps}_{tileWidth}_{tileHeight}` is a
pure, injective function of the parameter triple; `(4,8,8)` maps to
`"py2_4_8_8"` and its name differs from that of `(6,8,8)`. -/
theorem C3_variantName_injective :
    (∀ v v' : Variant, variantName v = variantName v' → v = v') ∧
    variantName ⟨4, 8, 8⟩ = "py2_4_8_8" ∧
    variantName ⟨4, 8, 8⟩ ≠ variantName ⟨6, 8, 8⟩ :=
  ⟨fun _ _ h => variantName_inj h, by decide, by decide⟩

/-- Witness for C3: injectivity applied at `(4,8,8)` against itself. -/
theorem C3_variantName_injective_witness : (⟨4, 8, 8⟩ : Variant) = ⟨4, 8, 8⟩ :=
  C3_variantName_injective.1 ⟨4, 8, 8⟩ ⟨4, 8, 8⟩ rfl

/-- Claim C4: the Registrar never inspects the Generator's outcome — the
registry write sequence is identical for any two exit-status assignments,
and every enumerated Variant yields exactly one registry entry, in order,
whether its generation succeeded or failed. -/
theorem C4_registrar_ignores_generator_outcome
    (gen gen' : Nat → Nat → Nat → Int) (ws ts : List Nat) :
    writesOf (runEvents gen ws ts) = writesOf (runEvents gen' ws ts) ∧
    writesOf (runEvents gen ws ts)
      = (enumerate ws ts).map (fun v => registryLine (variantName v)) := by
  rw [writesOf_runEvents, writesOf_runEvents]
  exact ⟨rfl, rfl⟩

/-- Claim C5: end-to-end with `warpCounts = (4,)`, `tileDims = (8,)`, for
any generator outcome: the trace is exactly truncating open, one generator
invocation, the single registry line `{"py2_4_8_8", {"py2_4_8_8"}},\n`,
then the two version-control track requests for
`py2_4_8_8/general_pipeline_alternative.glsl` and `py2_4_8_8/py2_4_8_8.cpp`,
in that order. -/
theorem C5_end_to_end (gen : Nat → Nat → Nat → Int) :
    runEvents gen [4] [8] =
      [Event.openTrunc,
       Event.genCall 4 8 8 (gen 4 8 8),
       Event.write "\x7b\"py2_4_8_8\", \x7b\"py2_4_8_8\"\x7d\x7d,\n",
       Event.gitAdd "py2_4_8_8/general_pipeline_alternative.glsl",
       Event.gitAdd "py2_4_8_8/py2_4_8_8.cpp"] ∧
    writesOf (runEvents gen [4] [8])
      = ["\x7b\"py2_4_8_8\", \x7b\"py2_4_8_8\"\x7d\x7d,\n"] ∧
    gitAddsOf (runEvents gen [4] [8])
      = ["py2_4_8_8/general_pipeline_alternative.glsl", "py2_4_8_8/py2_4_8_8.cpp"] :=
  ⟨rfl, rfl, rfl⟩

/-- Claim C6: processing is strictly sequential per Variant: the k-th
enumerated Variant occupies trace positions 4k+1..4k+4 in the fixed order
generator invocation, registry write, then the two track requests — so
Variant k+1's generator invocation (position 4k+5) comes strictly after
Variant k's registry write (position 4k+2). -/
theorem C6_strict_sequencing (gen : Nat → Nat → Nat → Int) (ws ts : List Nat)
    (k : Nat) (hk : k < (enumerate ws ts).length) (v : Variant)
    (hv : v = (enumerate ws ts).get ⟨k, hk⟩) :
    (runEvents gen ws ts)[4 * k + 1]? =
      some (Event.genCall v.warps v.tileWidth v.tileHeight
        (gen v.warps v.tileWidth v.tileHeight)) ∧
    (runEvents gen ws ts)[4 * k + 2]? =
      some (Event.write (registryLine (variantName v))) ∧
    (runEvents gen ws ts)[4 * k + 3]? =
      some (Event.gitAdd (variantName v ++ "/general_pipeline_alternative.glsl")) ∧
    (runEvents gen ws ts)[4 * k + 4]? =
      some (Event.gitAdd (variantName v ++ "/" ++ variantName v ++ ".cpp")) := by
  subst hv
  refine ⟨?_, ?_, ?_, ?_⟩
  · exact runEvents_getElem? gen ws ts k 0 hk (by omega)
  · rw [show 4 * k + 2 = 4 * k + 1 + 1 from rfl]
    exact runEvents_getElem? gen ws ts k 1 hk (by omega)
  · rw [show 4 * k + 3 = 4 * k + 2 + 1 from rfl]
    exact runEvents_getElem? gen ws ts k 2 hk (by omega)
  · rw [show 4 * k + 4 = 4 * k + 3 + 1 from rfl]
    exact runEvents_getElem? gen ws ts k 3 hk (by omega)

/-- Witness for C6 at the second Variant of `warpCounts = [4,6]`,
`tileDims = [8]`. -/
theorem C6_strict_sequencing_witness :
    (runEvents (fun _ _ _ => 0) [4, 6] [8])[4 * 1 + 2]? =
      some (Event.write (registryLine (variantName ⟨6, 8, 8⟩))) := by
  have h := C6_strict_sequencing (fun _ _ _ => 0) [4, 6] [8] 1 (by decide)
    ⟨6, 8, 8⟩ (by decide)
  exact h.2.1

/-- Claim C7: two runs over identical parameter sequences produce
byte-identical registry content: the content never depends on the
generator's outcomes and is a function of the two sequences alone. -/
theorem C7_deterministic_registry (gen gen' : Nat → Nat → Nat → Int) (ws ts : List Nat) :
    registryContent (runEvents gen ws ts) = registryContent (runEvents gen' ws ts) ∧
    registryContent (runEvents gen ws ts)
      = String.join ((enumerate ws ts).map fun v => registryLine (variantName v)) := by
  rw [registryContent, registryContent, writesOf_runEvents, writesOf_runEvents]
  exact ⟨rfl, rfl⟩

/-- Claim C8: an empty `warpCounts` or empty `tileDims` yields zero
Variants, zero generator invocations and a zero-length registry stream
(the run is still a well-defined total function, not an error). -/
theorem C8_empty_inputs (gen : Nat → Nat → Nat → Int) (ws ts : List Nat) :
    enumerate [] ts = [] ∧ enumerate ws [] = [] ∧
    genCallsOf (runEvents gen [] ts) = [] ∧ genCallsOf (runEvents gen ws []) = [] ∧
    writesOf (runEvents gen [] ts) = [] ∧ writesOf (runEvents gen ws []) = [] ∧
    registryContent (runEvents gen [] ts) = "" ∧
    registryContent (runEvents gen ws []) = "" := by
  have h1 : enumerate [] ts = [] := rfl
  have h2 : enumerate ws [] = [] := by simp [enumerate]
  refine ⟨h1, h2, ?_, ?_, ?_, ?_, ?_, ?_⟩
  · rw [genCallsOf_runEvents, h1, List.map_nil]
  · rw [genCallsOf_runEvents, h2, List.map_nil]
  · rw [writesOf_runEvents, h1, List.map_nil]
  · rw [writesOf_runEvents, h2, List.map_nil]
  · rw [registryContent, writesOf_runEvents, h1, List.map_nil]; rfl
  · rw [registryContent, writesOf_runEvents, h2, List.map_nil]; rfl

/-- Claim C9: the baseline parameter tuples are the fixed constants
`(4, 6, 8, 10, 12, 16, 32)` and `(8, 10, 12, 14, 16, 20, 24)` (seven values
each), so the full baseline run enumerates exactly 49 Variants and writes
exactly 49 registry lines. -/
theorem C9_baseline_constants :
    warps_choices = [4, 6, 8, 10, 12, 16, 32] ∧
    tile_dim_choices = [8, 10, 12, 14, 16, 20, 24] ∧
    warps_choices.length = 7 ∧ tile_dim_choices.length = 7 ∧
    (enumerate warps_choices tile_dim_choices).length = 49 ∧
    ∀ gen, (writesOf (mainRun gen)).length = 49 := by
  refine ⟨rfl, rfl, rfl, rfl, by decide, fun gen => ?_⟩
  rw [mainRun, writesOf_runEvents, List.length_map]
  decide

/-- Claim C10: the registry file is opened in truncating write mode before
the first generator invocation, so for non-empty parameter sequences any
prior registry content is already destroyed by the time the first
generation runs (whatever its outcome), and the final content never
depends on the pre-run content — prior state is not preserved. -/
theorem C10_truncate_destroys_prior_content (gen : Nat → Nat → Nat → Int)
    (w t : Nat) (ws ts : List Nat) (prev : String) :
    (runEvents gen (w :: ws) (t :: ts)).take 2
      = [Event.openTrunc, Event.genCall w t t (gen w t t)] ∧
    fileAfter prev ((runEvents gen (w :: ws) (t :: ts)).take 2) = "" ∧
    fileAfter prev (runEvents gen (w :: ws) (t :: ts))
      = registryContent (runEvents gen (w :: ws) (t :: ts)) :=
  ⟨rfl, rfl, fileAfter_runEvents gen (w :: ws) (t :: ts) prev⟩

end Py2GenerateAll
